import Mathlib

set_option autoImplicit false

namespace Nuclei

/-- Machine strings are modelled as lists of characters. -/
abbrev Str := List Char

/-- The loader's template kind from internal/runner/templates.go:
plain templates, workflows, or advanced (code) workflows. -/
inductive TemplateType where
  | Template
  | Workflows
  | AdvancedWorkflow
  deriving DecidableEq

/-- The fields of a parsed template that the loader in templates.go
inspects: its ID, the Info metadata map, the workflow list and the
advanced-workflow code block. -/
structure Template where
  ID : Str
  Info : List (Str × Str)
  Workflows : List Str
  Code : Str
  deriving DecidableEq

/-- The key "severity" used to read the template severity from Info. -/
def sevKey : Str := ['s', 'e', 'v', 'e', 'r', 'i', 't', 'y']

/-- Reading a key from the Info map: a missing key yields the empty
string, as types.ToString of a nil map entry does in Go. -/
def infoGet (info : List (Str × Str)) (k : Str) : Str :=
  match info.lookup k with
  | some v => v
  | none => []

/-- Lowercasing a string, as strings.ToLower does. -/
def strToLower (s : Str) : Str := s.map Char.toLower

/-- Splitting a string at every comma, as strings.Split with separator
"," does in Go: n commas yield n+1 fields, empty fields included. -/
def splitOnComma : Str → List Str
  | [] => [[]]
  | c :: rest =>
    if c = ',' then [] :: splitOnComma rest
    else
      match splitOnComma rest with
      | s :: ss => (c :: s) :: ss
      | [] => [[c]]

/-- hasMatchingSeverity from templates.go: scans each allowed entry,
splits it on commas when it holds one, lowercases each component, and
reports a match when a non-empty component is a prefix of the template
severity. -/
def hasMatchingSeverity (templateSeverity : Str) (allowedSeverities : List Str) : Bool :=
  allowedSeverities.any fun s =>
    let finalSeverities := if s.contains ',' then splitOnComma s else [s]
    finalSeverities.any fun sev0 =>
      let sev := strToLower sev0
      !sev.isEmpty && sev.isPrefixOf templateSeverity

/-- Go map assignment parsedTemplates[k] = v: any existing binding of
the key is replaced. -/
def mapInsert (m : List (Str × Template)) (k : Str) (v : Template) : List (Str × Template) :=
  m.filter (fun kv => !(kv.1 == k)) ++ [(k, v)]

/-- The severity check at the end of the loading loop: with no
severities requested every template passes, otherwise
hasMatchingSeverity decides on the lowercased Info severity. -/
def sevPass (severities : List Str) (t : Template) : Bool :=
  severities.isEmpty || hasMatchingSeverity (strToLower (infoGet t.Info sevKey)) severities

/-- The template-type filter of the loading loop: plain templates must
have no workflows and no code, workflow templates at least one
workflow, advanced workflows a non-empty code block. -/
def typePass (tt : TemplateType) (t : Template) : Bool :=
  match tt with
  | .Template => t.Workflows.isEmpty && t.Code.isEmpty
  | .Workflows => !t.Workflows.isEmpty
  | .AdvancedWorkflow => !t.Code.isEmpty

/-- One iteration of the loading loop of getParsedTemplatesFor: parse
the path (skipping errors and nil templates), apply the template-type
filter, incrementing workflowCount for kept workflow kinds, then store
the template by ID when the severity filter passes. -/
def loadStep (parse : Str → Except Str (Option Template))
    (severities : List Str) (templateType : TemplateType)
    (acc : List (Str × Template) × Nat) (path : Str) :
    List (Str × Template) × Nat :=
  match parse path with
  | .error _ => acc
  | .ok none => acc
  | .ok (some t) =>
    let afterType : Bool × Nat :=
      match templateType with
      | .AdvancedWorkflow => if t.Code.isEmpty then (false, acc.2) else (true, acc.2 + 1)
      | .Workflows => if t.Workflows.isEmpty then (false, acc.2) else (true, acc.2 + 1)
      | .Template =>
        if !t.Workflows.isEmpty || !t.Code.isEmpty then (false, acc.2) else (true, acc.2)
    if afterType.1 then
      if sevPass severities t then (mapInsert acc.1 t.ID t, afterType.2)
      else (acc.1, afterType.2)
    else (acc.1, afterType.2)

/-- The loading loop over the remaining template paths, threading the
accumulated map and workflow count. -/
def loadGo (parse : Str → Except Str (Option Template))
    (severities : List Str) (templateType : TemplateType)
    (acc : List (Str × Template) × Nat) : List Str → List (Str × Template) × Nat
  | [] => acc
  | p :: rest => loadGo parse severities templateType (loadStep parse severities templateType acc p) rest

/-- getParsedTemplatesFor from templates.go: runs the loading loop over
all requested template paths, starting from an empty map and a zero
workflow count.  The parse argument stands for r.parseTemplateFile. -/
def getParsedTemplatesFor (parse : Str → Except Str (Option Template))
    (templatePaths severities : List Str) (templateType : TemplateType) :
    List (Str × Template) × Nat :=
  loadGo parse severities templateType ([], 0) templatePaths

/-- Modelled from the spec: matcher and block combinators are AND or
OR (the matcher/extractor evaluation code is not under src).  -/
inductive Combinator where
  | AND
  | OR
  deriving DecidableEq

/-- Modelled from the spec: a Matcher has a name, a target part, a
list of conditions, a negate flag and an internal combinator; the
protocol-specific condition kinds are abstracted into a type
parameter. -/
structure Matcher (Cond : Type) where
  name : Str
  part : Str
  conditions : List Cond
  negate : Bool
  combinator : Combinator

/-- Modelled from the spec: a Response View exposes named parts (body,
headers, raw, protocol fields) that matchers and extractors read. -/
structure ResponseView where
  parts : List (Str × Str)
  deriving DecidableEq

/-- Modelled from the spec: whether one matcher fires against a
response view, given the protocol-specific condition-match function.
An unknown part is a configuration error that short-circuits the
matcher as non-firing; a matcher with zero conditions never fires;
otherwise the internal combinator (AND all, OR any) is evaluated on
the extracted part and negate flips the matcher's own result. -/
def Matcher.fired {Cond : Type} (cm : Cond → Str → Bool) (m : Matcher Cond)
    (rv : ResponseView) : Bool :=
  match rv.parts.lookup m.part with
  | none => false
  | some partVal =>
    if m.conditions.isEmpty then false
    else
      let base :=
        match m.combinator with
        | .AND => m.conditions.all fun c => cm c partVal
        | .OR => m.conditions.any fun c => cm c partVal
      if m.negate then !base else base

/-- Modelled from the spec: the evaluation pass of the Match
Expression Evaluator over the matchers of a Request Block in
declaration order, producing each matcher's boolean and accumulating
the names of the fired matchers. -/
def evalMatchersGo {Cond : Type} (cm : Cond → Str → Bool) (rv : ResponseView) :
    List (Matcher Cond) → List Bool × List Str
  | [] => ([], [])
  | m :: rest =>
    let r := m.fired cm rv
    let tail := evalMatchersGo cm rv rest
    (r :: tail.1, if r then m.name :: tail.2 else tail.2)

/-- Modelled from the spec: the Match Expression Evaluator contract
evaluate(matchers, combinator, responseView) = (fired, matchedNames):
matchers are evaluated in declaration order, their booleans aggregated
by the block-level combinator, and the fired matchers' names
returned. -/
def evaluateBlock {Cond : Type} (cm : Cond → Str → Bool)
    (matchers : List (Matcher Cond)) (comb : Combinator) (rv : ResponseView) :
    Bool × List Str :=
  let results := evalMatchersGo cm rv matchers
  let fired :=
    match comb with
    | .AND => results.1.all id
    | .OR => results.1.any id
  (fired, results.2)

/-- Modelled from the spec: an Extractor has a name, a target part and
an internal flag; its protocol-specific capture rule is abstracted as
a function from the target part's content to the ordered list of
captured values. -/
structure Extractor where
  name : Str
  part : Str
  internal : Bool

/-- Modelled from the spec: the content of an extractor's target part,
the empty string when the part is unknown. -/
def partContent (rv : ResponseView) (p : Str) : Str :=
  match rv.parts.lookup p with
  | some v => v
  | none => []

/-- Modelled from the spec: the Extractor Evaluator contract
evaluate(extractors, responseView) = map from name to captured values.
Each extractor independently applies its capture rule to its target
part; a capture that finds no match adds no entry (absent key, never
an empty placeholder value), and results keep declaration order. -/
def extractorEval (capture : Extractor → Str → List Str)
    (extractors : List Extractor) (rv : ResponseView) : List (Str × List Str) :=
  match extractors with
  | [] => []
  | e :: rest =>
    let vs := capture e (partContent rv e.part)
    let tail := extractorEval capture rest rv
    if vs.isEmpty then tail else (e.name, vs) :: tail

/-- Variable bindings of an Execution Context, in accumulation order. -/
abbrev Env := List (Str × Str)

/-- Modelled from the spec: a workflow step names a sub-template,
carries the match outcome of dispatching it, the variables its own
extractors produce, and its nested on-match child steps. -/
inductive WStep where
  | node (tid : Str) (matched : Bool) (extracts : Env) (children : List WStep)

/-- The sub-template ID of a workflow step. -/
def WStep.tid : WStep → Str
  | .node t _ _ _ => t

/-- The match outcome of a workflow step's dispatch. -/
def WStep.matched : WStep → Bool
  | .node _ m _ _ => m

/-- The variables extracted by a workflow step itself. -/
def WStep.extracts : WStep → Env
  | .node _ _ e _ => e

/-- The nested on-match child steps of a workflow step. -/
def WStep.children : WStep → List WStep
  | .node _ _ _ c => c

mutual
/-- Modelled from the spec: the variables a whole step subtree merges
into the Execution Context: nothing when unmatched; when matched, the
children's contributions in order, then the step's own extracts
(merged after its children complete). -/
def collectStep : WStep → Env
  | .node _ matched extracts children =>
    if matched then collectForest children ++ extracts else []

/-- The merged variables of a list of sibling steps, left to right. -/
def collectForest : List WStep → Env
  | [] => []
  | s :: rest => collectStep s ++ collectForest rest
end

mutual
/-- Modelled from the spec: the Workflow Engine running one step on a
given Execution Context.  The step is dispatched reading the current
environment (recorded in the trace at path []); when matched its
children run sequentially and its own extracts are merged after they
complete; when unmatched the children are skipped and nothing is
merged.  Returns the final environment and the trace of (relative
path, environment read at dispatch) for every visited step. -/
def runStep (env : Env) (s : WStep) : Env × List (List Nat × Env) :=
  match s with
  | .node _ matched extracts children =>
    if matched then
      let r := runForest env children
      (r.1 ++ extracts, ([], env) :: r.2)
    else
      (env, [([], env)])

/-- Modelled from the spec: running sibling steps depth-first, left to
right, threading the Execution Context; trace paths are indexed by
sibling position. -/
def runForest (env : Env) : List WStep → Env × List (List Nat × Env)
  | [] => (env, [])
  | s :: rest =>
    let r1 := runStep env s
    let r2 := runForest r1.1 rest
    (r2.1,
      r1.2.map (fun pe => (0 :: pe.1, pe.2)) ++
        r2.2.map fun pe =>
          match pe with
          | (j :: q, e) => ((j + 1) :: q, e)
          | ([], e) => ([], e))
end

/-- Modelled from the spec: the variables visible to the step at a
given path, directly from the propagation rule's words: at every level
along the path, the variables accumulated by the already-completed
earlier siblings of that ancestor (the subtree collections of the
siblings to its left). -/
def visForest : List WStep → List Nat → Env
  | _, [] => []
  | ss, j :: q =>
    collectForest (ss.take j) ++
      match q with
      | [] => []
      | _ =>
        match ss.get? j with
        | some s => visForest s.children q
        | none => []

/-- The variables visible relative to one step: nothing at the step
itself, and the forest visibility of its children further down. -/
def visStepRel (s : WStep) (p : List Nat) : Env :=
  match p with
  | [] => []
  | _ :: _ => visForest s.children p

/-- Modelled from the spec: the outcome of one dispatch attempt of a
compiled request: a normalized response, a transport failure (timeout,
connection refused, DNS failure) or a protocol-level error (malformed
response). -/
inductive AttemptOutcome where
  | success (rv : ResponseView)
  | transportFailure
  | protocolFailure
  deriving DecidableEq

/-- Modelled from the spec: the per-request outcome the Orchestrator
records: a response handed to match evaluation, a non-match after
transport retries ran out, or a failed match attempt on a
protocol-level error.  All three are ordinary results: the scan
continues. -/
inductive ReqResult where
  | completed (rv : ResponseView)
  | nonMatch
  | failedMatchAttempt
  deriving DecidableEq

/-- Modelled from the spec: the Orchestrator's retry loop for one
request.  The attempt function gives the outcome of each dispatch; a
transport failure is retried while retries remain and becomes a
non-match when they run out; a protocol-level error is never retried;
a success goes to match evaluation.  Returns the index one past the
last attempt made, and the result. -/
def runWithRetries (attempt : Nat → AttemptOutcome) :
    Nat → Nat → Nat × ReqResult
  | 0, i =>
    match attempt i with
    | .success rv => (i + 1, .completed rv)
    | .protocolFailure => (i + 1, .failedMatchAttempt)
    | .transportFailure => (i + 1, .nonMatch)
  | r + 1, i =>
    match attempt i with
    | .success rv => (i + 1, .completed rv)
    | .protocolFailure => (i + 1, .failedMatchAttempt)
    | .transportFailure => runWithRetries attempt r (i + 1)

/-- Whether a path parses to a template with at least one workflow:
the templates counted by workflowCount under the Workflows kind. -/
def workflowKindP (parse : Str → Except Str (Option Template)) (p : Str) : Bool :=
  match parse p with
  | .ok (some t) => !t.Workflows.isEmpty
  | _ => false

/-- Whether a path parses to a template with a non-empty code block:
the templates counted by workflowCount under the AdvancedWorkflow
kind. -/
def advancedKindP (parse : Str → Except Str (Option Template)) (p : Str) : Bool :=
  match parse p with
  | .ok (some t) => !t.Code.isEmpty
  | _ => false

section ConcreteInputs

/-- A plain template with ID x, no metadata, no workflows, no code. -/
def cT1 : Template := ⟨['x'], [], [], []⟩

/-- A second plain template with the same ID x but different Info. -/
def cT2 : Template := ⟨['x'], [(['k'], ['v'])], [], []⟩

/-- A parse function returning cT1 for path a and cT2 elsewhere. -/
def cParseDup : Str → Except Str (Option Template) := fun p =>
  if p = ['a'] then .ok (some cT1) else .ok (some cT2)

/-- A parse function failing on path e and returning cT1 elsewhere. -/
def cParseErr : Str → Except Str (Option Template) := fun p =>
  if p = ['e'] then .error ['m'] else .ok (some cT1)

/-- A workflow template of severity high. -/
def cTWf : Template := ⟨['w'], [(sevKey, ['h', 'i', 'g', 'h'])], [['q']], []⟩

/-- A parse function failing on path e and returning the workflow
template cTWf elsewhere. -/
def cParseWf : Str → Except Str (Option Template) := fun p =>
  if p = ['e'] then .error ['m'] else .ok (some cTWf)

/-- A concrete condition-match function: the condition string must be
a prefix of the extracted part. -/
def cCondMatch : Str → Str → Bool := fun c pv => c.isPrefixOf pv

/-- A matcher with no conditions, combinator AND, negate off. -/
def cMatcherEmpty : Matcher Str := ⟨['m'], ['b'], [], false, .AND⟩

/-- A matcher with one condition o, combinator OR, negate off. -/
def cMatcherOR : Matcher Str := ⟨['n'], ['b'], [['o']], false, .OR⟩

/-- A response view whose body part is ok. -/
def cRV : ResponseView := ⟨[(['b'], ['o', 'k'])]⟩

/-- An extractor named g over the body part. -/
def cExtrG : Extractor := ⟨['g'], ['b'], false⟩

/-- An extractor named n over the body part. -/
def cExtrN : Extractor := ⟨['n'], ['b'], false⟩

/-- A concrete capture rule: extractor g captures v, all others
capture nothing. -/
def cCap : Extractor → Str → List Str := fun e _ =>
  if e.name = ['g'] then [['v']] else []

/-- A matched workflow step extracting variable a. -/
def wfS1 : WStep := .node ['s', '1'] true [(['a'], ['1'])] []

/-- A matched child step extracting variable t. -/
def wfS2c : WStep := .node ['c'] true [(['t'], ['v'])] []

/-- A matched workflow step extracting variable b, with one child. -/
def wfS2 : WStep := .node ['s', '2'] true [(['b'], ['2'])] [wfS2c]

/-- An unmatched workflow step. -/
def wfS3 : WStep := .node ['s', '3'] false [] []

/-- An attempt function that always fails at the transport level. -/
def cAttemptT : Nat → AttemptOutcome := fun _ => .transportFailure

/-- An attempt function that always fails at the protocol level. -/
def cAttemptP : Nat → AttemptOutcome := fun _ => .protocolFailure

/-- An empty response view. -/
def cRVEmpty : ResponseView := ⟨[]⟩

/-- An attempt function failing twice at the transport level, then
succeeding. -/
def cAttemptS : Nat → AttemptOutcome := fun k =>
  if k < 2 then .transportFailure else .success cRVEmpty

end ConcreteInputs

end Nuclei

namespace Nuclei

theorem splitOnComma_of_no_comma (s : Str) (h : s.contains ',' = false) :
    splitOnComma s = [s] := by
  induction s with
  | nil => rfl
  | cons c rest ih =>
    rw [List.contains_cons] at h
    rcases Bool.or_eq_false_iff.mp h with ⟨h1, h2⟩
    have hc : ¬ c = ',' := by
      intro hcc
      subst hcc
      simp at h1
    rw [splitOnComma, if_neg hc, ih h2]

/-- C4: hasMatchingSeverity returns true exactly when some allowed
entry, split on commas, has a component whose lowercasing is non-empty
and a prefix of the template severity; matching is case-insensitive on
the allowed side and empty components never match. -/
theorem hasMatchingSeverity_characterisation (ts : Str) (allowed : List Str) :
    hasMatchingSeverity ts allowed = true ↔
      ∃ s ∈ allowed, ∃ c ∈ splitOnComma s,
        strToLower c ≠ [] ∧ (strToLower c).isPrefixOf ts = true := by
  have hsplit : ∀ s : Str, (if ',' ∈ s then splitOnComma s else [s]) = splitOnComma s := by
    intro s
    by_cases h : ',' ∈ s
    · rw [if_pos h]
    · rw [if_neg h, splitOnComma_of_no_comma s (by simpa using h)]
  simp [hasMatchingSeverity, List.any_eq_true, List.isEmpty_iff, hsplit]

/-- C4 witness: the allowed entry CRIT,low has the component crit
after lowercasing, a prefix of the template severity critical. -/
theorem hasMatchingSeverity_characterisation_witness :
    hasMatchingSeverity (['c', 'r', 'i', 't', 'i', 'c', 'a', 'l'])
      [['C', 'R', 'I', 'T', ',', 'l', 'o', 'w']] = true :=
  (hasMatchingSeverity_characterisation _ _).mpr (by decide)

theorem mem_of_mem_mapInsert (m : List (Str × Template)) (k : Str) (v : Template)
    (a : Str × Template) (h : a ∈ mapInsert m k v) : a ∈ m ∨ a = (k, v) := by
  unfold mapInsert at h
  rcases List.mem_append.mp h with h1 | h1
  · exact Or.inl (List.mem_filter.mp h1).1
  · exact Or.inr (by simpa using h1)

theorem mem_mapInsert_self (m : List (Str × Template)) (k : Str) (v : Template) :
    (k, v) ∈ mapInsert m k v := by
  unfold mapInsert
  exact List.mem_append.mpr (Or.inr (by simp))

theorem mem_mapInsert_of_ne (m : List (Str × Template)) (k : Str) (v : Template)
    (k' : Str) (v' : Template) (h : (k', v') ∈ m) (hne : k' ≠ k) :
    (k', v') ∈ mapInsert m k v := by
  unfold mapInsert
  refine List.mem_append.mpr (Or.inl (List.mem_filter.mpr ⟨h, ?_⟩))
  simp [hne]

theorem loadGo_cons (parse : Str → Except Str (Option Template)) (sevs : List Str)
    (tt : TemplateType) (acc : List (Str × Template) × Nat) (p : Str) (rest : List Str) :
    loadGo parse sevs tt acc (p :: rest) =
      loadGo parse sevs tt (loadStep parse sevs tt acc p) rest := rfl

theorem loadGo_append (parse : Str → Except Str (Option Template)) (sevs : List Str)
    (tt : TemplateType) (acc : List (Str × Template) × Nat) (l1 l2 : List Str) :
    loadGo parse sevs tt acc (l1 ++ l2) = loadGo parse sevs tt (loadGo parse sevs tt acc l1) l2 := by
  induction l1 generalizing acc with
  | nil => rfl
  | cons p rest ih => rw [List.cons_append, loadGo_cons, loadGo_cons, ih]

theorem loadStep_of_error (parse : Str → Except Str (Option Template)) (sevs : List Str)
    (tt : TemplateType) (acc : List (Str × Template) × Nat) (p : Str) (msg : Str)
    (h : parse p = .error msg) : loadStep parse sevs tt acc p = acc := by
  unfold loadStep
  rw [h]

theorem loadStep_fst (parse : Str → Except Str (Option Template)) (sevs : List Str)
    (tt : TemplateType) (acc : List (Str × Template) × Nat) (p : Str) :
    (loadStep parse sevs tt acc p).1 =
      match parse p with
      | .ok (some t) =>
        if typePass tt t && sevPass sevs t then mapInsert acc.1 t.ID t else acc.1
      | _ => acc.1 := by
  unfold loadStep
  rcases hp : parse p with msg | o
  · rfl
  · cases o with
    | none => rfl
    | some t =>
      cases tt with
      | Template =>
        cases hw : t.Workflows.isEmpty <;> cases hc : t.Code.isEmpty <;>
          cases hs : sevPass sevs t <;> simp [typePass, hw, hc, hs]
      | Workflows =>
        cases hw : t.Workflows.isEmpty <;> cases hs : sevPass sevs t <;>
          simp [typePass, hw, hs]
      | AdvancedWorkflow =>
        cases hc : t.Code.isEmpty <;> cases hs : sevPass sevs t <;>
          simp [typePass, hc, hs]

theorem loadStep_snd_workflows (parse : Str → Except Str (Option Template)) (sevs : List Str)
    (acc : List (Str × Template) × Nat) (p : Str) :
    (loadStep parse sevs .Workflows acc p).2 =
      acc.2 + (if workflowKindP parse p then 1 else 0) := by
  unfold loadStep workflowKindP
  rcases hp : parse p with msg | o
  · simp
  · cases o with
    | none => simp
    | some t =>
      cases hw : t.Workflows.isEmpty <;> cases hs : sevPass sevs t <;> simp [hw, hs]

theorem loadStep_snd_advanced (parse : Str → Except Str (Option Template)) (sevs : List Str)
    (acc : List (Str × Template) × Nat) (p : Str) :
    (loadStep parse sevs .AdvancedWorkflow acc p).2 =
      acc.2 + (if advancedKindP parse p then 1 else 0) := by
  unfold loadStep advancedKindP
  rcases hp : parse p with msg | o
  · simp
  · cases o with
    | none => simp
    | some t =>
      cases hc : t.Code.isEmpty <;> cases hs : sevPass sevs t <;> simp [hc, hs]

theorem loadGo_count_workflows (parse : Str → Except Str (Option Template)) (sevs : List Str)
    (l : List Str) : ∀ acc : List (Str × Template) × Nat,
    (loadGo parse sevs .Workflows acc l).2 = acc.2 + l.countP (workflowKindP parse) := by
  induction l with
  | nil => intro acc; simp [loadGo]
  | cons p rest ih =>
    intro acc
    rw [loadGo_cons, ih, loadStep_snd_workflows, List.countP_cons]
    omega

theorem loadGo_count_advanced (parse : Str → Except Str (Option Template)) (sevs : List Str)
    (l : List Str) : ∀ acc : List (Str × Template) × Nat,
    (loadGo parse sevs .AdvancedWorkflow acc l).2 = acc.2 + l.countP (advancedKindP parse) := by
  induction l with
  | nil => intro acc; simp [loadGo]
  | cons p rest ih =>
    intro acc
    rw [loadGo_cons, ih, loadStep_snd_advanced, List.countP_cons]
    omega

/-- C6: workflowCount counts every successfully parsed template of the
requested workflow kind independently of the severity filter, and on a
concrete input with severity-excluded workflow templates it strictly
exceeds the number of entries of the returned map. -/
theorem workflowCount_counts_before_severity_filter :
    (∀ (parse : Str → Except Str (Option Template)) (paths sevs : List Str),
        (getParsedTemplatesFor parse paths sevs .Workflows).2 =
          paths.countP (workflowKindP parse)) ∧
    (∀ (parse : Str → Except Str (Option Template)) (paths sevs : List Str),
        (getParsedTemplatesFor parse paths sevs .AdvancedWorkflow).2 =
          paths.countP (advancedKindP parse)) ∧
    (getParsedTemplatesFor cParseWf [['a'], ['e'], ['b']] [['l', 'o', 'w']] .Workflows).2 >
      (getParsedTemplatesFor cParseWf [['a'], ['e'], ['b']] [['l', 'o', 'w']] .Workflows).1.length := by
  refine ⟨fun parse paths sevs => ?_, fun parse paths sevs => ?_, by decide⟩
  · rw [getParsedTemplatesFor, loadGo_count_workflows]
    omega
  · rw [getParsedTemplatesFor, loadGo_count_advanced]
    omega

theorem loadGo_typePass (parse : Str → Except Str (Option Template)) (sevs : List Str)
    (tt : TemplateType) (l : List Str) : ∀ acc : List (Str × Template) × Nat,
    (∀ kv ∈ acc.1, typePass tt kv.2 = true) →
    ∀ kv ∈ (loadGo parse sevs tt acc l).1, typePass tt kv.2 = true := by
  induction l with
  | nil => intro acc hacc; exact hacc
  | cons p rest ih =>
    intro acc hacc
    rw [loadGo_cons]
    refine ih _ ?_
    intro kv hkv
    rw [loadStep_fst] at hkv
    rcases hp : parse p with msg | o <;> rw [hp] at hkv
    · exact hacc kv hkv
    · cases o with
      | none => exact hacc kv hkv
      | some t =>
        have hkv2 : kv ∈ (if (typePass tt t && sevPass sevs t) = true
            then mapInsert acc.1 t.ID t else acc.1) := hkv
        by_cases hcond : (typePass tt t && sevPass sevs t) = true
        · rw [if_pos hcond] at hkv2
          rcases mem_of_mem_mapInsert _ _ _ _ hkv2 with hin | hin
          · exact hacc kv hin
          · rw [hin]
            exact ((Bool.and_eq_true _ _).mp hcond).1
        · rw [if_neg hcond] at hkv2
          exact hacc kv hkv2

/-- C5: every template in the map returned by getParsedTemplatesFor
satisfies the requested type filter: plain templates have no workflows
and an empty code block, workflow templates at least one workflow,
advanced workflows a non-empty code block. -/
theorem loaded_templates_satisfy_type_filter (parse : Str → Except Str (Option Template))
    (paths sevs : List Str) (tt : TemplateType) (k : Str) (t : Template)
    (h : (k, t) ∈ (getParsedTemplatesFor parse paths sevs tt).1) :
    (match tt with
     | .Template => t.Workflows = [] ∧ t.Code = []
     | .Workflows => t.Workflows ≠ []
     | .AdvancedWorkflow => t.Code ≠ []) := by
  have htp := loadGo_typePass parse sevs tt paths ([], 0) (by simp) (k, t) h
  cases tt <;> simp [typePass, List.isEmpty_iff] at htp ⊢ <;> tauto

/-- C5 witness: on a concrete load of a workflow template under the
Workflows kind, the returned entry has at least one workflow. -/
theorem loaded_templates_satisfy_type_filter_witness :
    ((cTWf.ID, cTWf) ∈ (getParsedTemplatesFor cParseWf [['a']] [] .Workflows).1) ∧
      cTWf.Workflows ≠ [] :=
  ⟨by decide, loaded_templates_satisfy_type_filter cParseWf [['a']] [] .Workflows
    cTWf.ID cTWf (by decide)⟩

theorem loadGo_mem_preserved (parse : Str → Except Str (Option Template)) (sevs : List Str)
    (tt : TemplateType) (t : Template) (l : List Str) :
    ∀ acc : List (Str × Template) × Nat, (t.ID, t) ∈ acc.1 →
    (∀ q ∈ l, ∀ t', parse q = .ok (some t') → typePass tt t' = true →
      sevPass sevs t' = true → t'.ID = t.ID → t' = t) →
    (t.ID, t) ∈ (loadGo parse sevs tt acc l).1 := by
  induction l with
  | nil => intro acc hmem _; exact hmem
  | cons p rest ih =>
    intro acc hmem huniq
    rw [loadGo_cons]
    refine ih _ ?_ fun q hq => huniq q (List.mem_cons_of_mem p hq)
    have hfst := loadStep_fst parse sevs tt acc p
    rcases hp : parse p with msg | o <;> rw [hp] at hfst
    · rw [hfst]; exact hmem
    · cases o with
      | none => rw [hfst]; exact hmem
      | some t' =>
        rw [hfst]
        show (t.ID, t) ∈ (if (typePass tt t' && sevPass sevs t') = true
          then mapInsert acc.1 t'.ID t' else acc.1)
        by_cases hcond : (typePass tt t' && sevPass sevs t') = true
        · rw [if_pos hcond]
          rcases ((Bool.and_eq_true _ _).mp hcond) with ⟨htp, hsp⟩
          by_cases hid : t'.ID = t.ID
          · have ht : t' = t := huniq p (List.mem_cons_self p rest) t' hp htp hsp hid
            subst ht
            exact mem_mapInsert_self _ _ _
          · exact mem_mapInsert_of_ne _ _ _ _ _ hmem fun he => hid he.symm
        · rw [if_neg hcond]; exact hmem

theorem loadGo_mem_of_passing (parse : Str → Except Str (Option Template)) (sevs : List Str)
    (tt : TemplateType) (t : Template) (p : Str) (l : List Str) :
    ∀ acc : List (Str × Template) × Nat, p ∈ l →
    parse p = .ok (some t) → typePass tt t = true → sevPass sevs t = true →
    (∀ q ∈ l, ∀ t', parse q = .ok (some t') → typePass tt t' = true →
      sevPass sevs t' = true → t'.ID = t.ID → t' = t) →
    (t.ID, t) ∈ (loadGo parse sevs tt acc l).1 := by
  induction l with
  | nil => intro acc hp; exact absurd hp (List.not_mem_nil p)
  | cons q rest ih =>
    intro acc hpl hparse htp hsp huniq
    rw [loadGo_cons]
    rcases List.mem_cons.mp hpl with heq | hrest
    · subst heq
      refine loadGo_mem_preserved parse sevs tt t rest _ ?_
        fun q hq => huniq q (List.mem_cons_of_mem p hq)
      have hfst := loadStep_fst parse sevs tt acc p
      rw [hparse] at hfst
      rw [hfst]
      show (t.ID, t) ∈ (if (typePass tt t && sevPass sevs t) = true
        then mapInsert acc.1 t.ID t else acc.1)
      rw [if_pos (by rw [htp, hsp]; rfl)]
      exact mem_mapInsert_self _ _ _
    · exact ih _ hrest hparse htp hsp fun q' hq' => huniq q' (List.mem_cons_of_mem q hq')

/-- C3 counterexample: two paths parse successfully to distinct
filter-passing templates sharing the ID x; the returned map holds only
the second, so it does not contain every successfully parsed template
that passes the filters. -/
theorem duplicate_id_first_template_dropped :
    cParseDup ['a'] = .ok (some cT1) ∧
      typePass .Template cT1 = true ∧ sevPass [] cT1 = true ∧ cT1 ≠ cT2 ∧
      (getParsedTemplatesFor cParseDup [['a'], ['b']] [] .Template).1 = [(['x'], cT2)] ∧
      ∀ kv ∈ (getParsedTemplatesFor cParseDup [['a'], ['b']] [] .Template).1, kv.2 ≠ cT1 :=
  ⟨rfl, by decide, by decide, by decide, by decide, by decide⟩

/-- C3 (amended): a path whose parse fails is skipped and all other
paths are processed as if it were absent, and — provided the
successfully parsed filter-passing templates have pairwise distinct
IDs — the returned map contains every successfully parsed template
that passes the type and severity filters. -/
theorem load_isolates_bad_templates :
    (∀ (parse : Str → Except Str (Option Template)) (pre post : List Str) (p msg : Str)
        (sevs : List Str) (tt : TemplateType), parse p = .error msg →
        getParsedTemplatesFor parse (pre ++ p :: post) sevs tt =
          getParsedTemplatesFor parse (pre ++ post) sevs tt) ∧
    (∀ (parse : Str → Except Str (Option Template)) (paths sevs : List Str)
        (tt : TemplateType) (p : Str) (t : Template),
        p ∈ paths → parse p = .ok (some t) → typePass tt t = true → sevPass sevs t = true →
        (∀ q ∈ paths, ∀ t', parse q = .ok (some t') → typePass tt t' = true →
          sevPass sevs t' = true → t'.ID = t.ID → t' = t) →
        (t.ID, t) ∈ (getParsedTemplatesFor parse paths sevs tt).1) := by
  constructor
  · intro parse pre post p msg sevs tt hp
    unfold getParsedTemplatesFor
    rw [loadGo_append, loadGo_append, loadGo_cons, loadStep_of_error parse sevs tt _ p msg hp]
  · intro parse paths sevs tt p t hpl hparse htp hsp huniq
    exact loadGo_mem_of_passing parse sevs tt t p paths _ hpl hparse htp hsp huniq

/-- C3 witness: with a parse that fails on path e, loading paths e,g
equals loading path g alone, and the successfully parsed passing
template of path g is in the returned map. -/
theorem load_isolates_bad_templates_witness :
    (getParsedTemplatesFor cParseErr [['e'], ['g']] [] .Template =
      getParsedTemplatesFor cParseErr [['g']] [] .Template) ∧
    ((cT1.ID, cT1) ∈ (getParsedTemplatesFor cParseErr [['e'], ['g']] [] .Template).1) := by
  constructor
  · exact load_isolates_bad_templates.1 cParseErr [] [['g']] ['e'] ['m'] [] .Template rfl
  · refine load_isolates_bad_templates.2 cParseErr [['e'], ['g']] [] .Template ['g'] cT1
      (by decide) rfl (by decide) (by decide) ?_
    intro q hq t' hp _ _ _
    rcases List.mem_cons.mp hq with rfl | hq2
    · exact absurd hp (by simp [cParseErr])
    · have hg : q = ['g'] := by simpa using hq2
      subst hg
      have h2 : Except.ok (ε := Str) (some cT1) = Except.ok (some t') := hp
      injection h2 with h3
      injection h3 with h4
      exact h4.symm

/-- C2: a matcher with an empty condition list never fires, whatever
its combinator, its negate flag, the condition semantics and the
response view. -/
theorem empty_conditions_never_fires {Cond : Type} (cm : Cond → Str → Bool)
    (m : Matcher Cond) (rv : ResponseView) (h : m.conditions = []) :
    m.fired cm rv = false := by
  unfold Matcher.fired
  cases hl : rv.parts.lookup m.part with
  | none => rfl
  | some pv => simp [h]

/-- C2 witness: the concrete zero-condition matcher does not fire even
though its target part is present. -/
theorem empty_conditions_never_fires_witness :
    cMatcherEmpty.conditions = [] ∧ cMatcherEmpty.fired cCondMatch cRV = false :=
  ⟨rfl, empty_conditions_never_fires cCondMatch cMatcherEmpty cRV rfl⟩

theorem fired_eq_of_lookup {Cond : Type} (cm : Cond → Str → Bool) (m : Matcher Cond)
    (rv : ResponseView) (pv : Str) (hpart : rv.parts.lookup m.part = some pv) :
    m.fired cm rv =
      if m.conditions.isEmpty then false
      else
        let base :=
          match m.combinator with
          | .AND => m.conditions.all fun c => cm c pv
          | .OR => m.conditions.any fun c => cm c pv
        if m.negate then !base else base := by
  unfold Matcher.fired
  rw [hpart]

/-- C1 counterexample: a matcher with zero conditions, combinator AND
and negate off, whose target part exists: every condition vacuously
matches the extracted part, yet the matcher does not fire, so fired is
not equivalent to the combinator evaluation with negate applied. -/
theorem empty_and_matcher_all_match_but_unfired :
    cMatcherEmpty.combinator = .AND ∧ cMatcherEmpty.negate = false ∧
      cRV.parts.lookup cMatcherEmpty.part = some ['o', 'k'] ∧
      (∀ c ∈ cMatcherEmpty.conditions, cCondMatch c ['o', 'k'] = true) ∧
      cMatcherEmpty.fired cCondMatch cRV = false ∧
      ¬ (cMatcherEmpty.fired cCondMatch cRV = true ↔
          ((∀ c ∈ cMatcherEmpty.conditions, cCondMatch c ['o', 'k'] = true) ↔
            cMatcherEmpty.negate = false)) :=
  ⟨rfl, rfl, by decide, by decide, by decide, by decide⟩

/-- C1 (amended): for a matcher whose target part exists and whose
condition list is non-empty, fired is true exactly when the internal
combinator over the conditions (OR: at least one matches; AND: all
match) agrees with the negate flag being off — negate inverts the
matcher's own result after combinator evaluation. -/
theorem matcher_fired_characterisation {Cond : Type} (cm : Cond → Str → Bool)
    (m : Matcher Cond) (rv : ResponseView) (pv : Str)
    (hpart : rv.parts.lookup m.part = some pv) (hne : m.conditions ≠ []) :
    (m.fired cm rv = true ↔
      ((match m.combinator with
        | .AND => ∀ c ∈ m.conditions, cm c pv = true
        | .OR => ∃ c ∈ m.conditions, cm c pv = true) ↔ m.negate = false)) := by
  rw [fired_eq_of_lookup cm m rv pv hpart]
  have hie : m.conditions.isEmpty = false := by
    cases hc : m.conditions with
    | nil => exact absurd hc hne
    | cons a l => rfl
  rw [hie]
  cases hcomb : m.combinator <;> cases hneg : m.negate <;>
    simp [List.all_eq_true, List.any_eq_true]

/-- C1 witness: the concrete one-condition OR matcher fires exactly
when its condition matches the body. -/
theorem matcher_fired_characterisation_witness :
    (cRV.parts.lookup cMatcherOR.part = some ['o', 'k']) ∧ cMatcherOR.conditions ≠ [] ∧
      (cMatcherOR.fired cCondMatch cRV = true ↔
        ((∃ c ∈ cMatcherOR.conditions, cCondMatch c ['o', 'k'] = true) ↔
          cMatcherOR.negate = false)) :=
  ⟨by decide, by decide,
    matcher_fired_characterisation cCondMatch cMatcherOR cRV ['o', 'k'] (by decide) (by decide)⟩

theorem evalMatchersGo_names {Cond : Type} (cm : Cond → Str → Bool) (rv : ResponseView)
    (ms : List (Matcher Cond)) :
    (evalMatchersGo cm rv ms).2 = (ms.filter fun m => m.fired cm rv).map Matcher.name := by
  induction ms with
  | nil => rfl
  | cons m rest ih =>
    cases hr : m.fired cm rv <;> simp [evalMatchersGo, List.filter_cons, hr, ih]

/-- C8: the matchedNames component of the Match Expression Evaluator
is exactly the names of the fired matchers in their declaration order
within the Request Block. -/
theorem matchedNames_in_declaration_order {Cond : Type} (cm : Cond → Str → Bool)
    (matchers : List (Matcher Cond)) (comb : Combinator) (rv : ResponseView) :
    (evaluateBlock cm matchers comb rv).2 =
      (matchers.filter fun m => m.fired cm rv).map Matcher.name :=
  evalMatchersGo_names cm rv matchers

/-- C7: when every extractor bearing a given name captures nothing,
the Extractor Evaluator's result has no entry for that name (an absent
key, not an error), and no entry of the result ever holds an empty
value standing in for a missing capture. -/
theorem extractor_no_capture_absent_key (capture : Extractor → Str → List Str)
    (extractors : List Extractor) (rv : ResponseView) (n : Str)
    (h : ∀ e ∈ extractors, e.name = n → capture e (partContent rv e.part) = []) :
    (extractorEval capture extractors rv).lookup n = none ∧
      ∀ kv ∈ extractorEval capture extractors rv, kv.2 ≠ ([] : List Str) := by
  induction extractors with
  | nil => exact ⟨rfl, by simp [extractorEval]⟩
  | cons e rest ih =>
    obtain ⟨ih1, ih2⟩ := ih fun e' he' => h e' (List.mem_cons_of_mem e he')
    have hstep : extractorEval capture (e :: rest) rv =
        if (capture e (partContent rv e.part)).isEmpty
        then extractorEval capture rest rv
        else (e.name, capture e (partContent rv e.part)) :: extractorEval capture rest rv := rfl
    cases hv : (capture e (partContent rv e.part)).isEmpty with
    | true =>
      rw [hstep, if_pos hv]
      exact ⟨ih1, ih2⟩
    | false =>
      rw [hstep, if_neg (by rw [hv]; exact Bool.false_ne_true)]
      have hn : ¬ e.name = n := by
        intro he
        rw [h e (List.mem_cons_self e rest) he] at hv
        exact absurd hv (by simp)
      constructor
      · rw [List.lookup_cons]
        have : (n == e.name) = false := by
          rcases Bool.eq_false_or_eq_true (n == e.name) with hb | hb
          · exact absurd (eq_of_beq hb).symm hn
          · exact hb
        rw [this]
        exact ih1
      · intro kv hkv
        rcases List.mem_cons.mp hkv with hkv1 | hkv1
        · intro hemp
          rw [hkv1] at hemp
          have hemp2 : capture e (partContent rv e.part) = [] := hemp
          rw [hemp2] at hv
          simp at hv
        · exact ih2 kv hkv1

/-- C7 witness: with one capturing and one non-capturing concrete
extractor, the non-capturing name n is absent and no entry is empty. -/
theorem extractor_no_capture_absent_key_witness :
    (∀ e ∈ [cExtrG, cExtrN], e.name = ['n'] → cCap e (partContent cRV e.part) = []) ∧
    ((extractorEval cCap [cExtrG, cExtrN] cRV).lookup ['n'] = none ∧
      ∀ kv ∈ extractorEval cCap [cExtrG, cExtrN] cRV, kv.2 ≠ ([] : List Str)) :=
  ⟨by decide, extractor_no_capture_absent_key cCap [cExtrG, cExtrN] cRV ['n'] (by decide)⟩

theorem runWithRetries_all_transport (attempt : Nat → AttemptOutcome)
    (h : ∀ k, attempt k = .transportFailure) :
    ∀ n i : Nat, runWithRetries attempt n i = (i + n + 1, .nonMatch) := by
  intro n
  induction n with
  | zero =>
    intro i
    rw [runWithRetries, h i]
  | succ n ih =>
    intro i
    rw [runWithRetries, h i]
    show runWithRetries attempt n (i + 1) = (i + (n + 1) + 1, ReqResult.nonMatch)
    rw [ih (i + 1)]
    have harith : i + 1 + n + 1 = i + (n + 1) + 1 := by omega
    rw [harith]

theorem runWithRetries_protocol (attempt : Nat → AttemptOutcome) (n i : Nat)
    (h : attempt i = .protocolFailure) :
    runWithRetries attempt n i = (i + 1, .failedMatchAttempt) := by
  cases n with
  | zero => rw [runWithRetries, h]
  | succ n => rw [runWithRetries, h]

theorem runWithRetries_success (attempt : Nat → AttemptOutcome) (rv : ResponseView) :
    ∀ j n i : Nat, j ≤ n → (∀ k, k < j → attempt (i + k) = .transportFailure) →
    attempt (i + j) = .success rv →
    runWithRetries attempt n i = (i + j + 1, .completed rv) := by
  intro j
  induction j with
  | zero =>
    intro n i _ _ hs
    cases n with
    | zero => rw [runWithRetries, show attempt i = .success rv from hs]
    | succ n => rw [runWithRetries, show attempt i = .success rv from hs]
  | succ j ih =>
    intro n i hjn hter hs
    have ht0 : attempt i = .transportFailure := by
      have := hter 0 (Nat.succ_pos j)
      rwa [Nat.add_zero] at this
    cases n with
    | zero => exact absurd hjn (by omega)
    | succ n =>
      rw [runWithRetries, ht0]
      show runWithRetries attempt n (i + 1) = (i + (j + 1) + 1, ReqResult.completed rv)
      have hrec := ih n (i + 1) (by omega)
        (fun k hk => by
          have hx := hter (k + 1) (by omega)
          rwa [show i + (k + 1) = i + 1 + k by omega] at hx)
        (by rwa [show i + 1 + j = i + (j + 1) by omega])
      rwa [show i + 1 + j + 1 = i + (j + 1) + 1 by omega] at hrec

/-- C10: a run whose every attempt fails at the transport level is
retried exactly the fixed retry budget and reported as a non-match; a
protocol-level failure is never retried and becomes a failed match
attempt; a transport failure that later succeeds within the budget
hands the successful response to match evaluation. -/
theorem transport_retried_protocol_not :
    (∀ (attempt : Nat → AttemptOutcome) (n : Nat),
        (∀ k, attempt k = .transportFailure) →
        runWithRetries attempt n 0 = (n + 1, .nonMatch)) ∧
    (∀ (attempt : Nat → AttemptOutcome) (n i : Nat),
        attempt i = .protocolFailure →
        runWithRetries attempt n i = (i + 1, .failedMatchAttempt)) ∧
    (∀ (attempt : Nat → AttemptOutcome) (n j : Nat) (rv : ResponseView),
        j ≤ n → (∀ k, k < j → attempt k = .transportFailure) → attempt j = .success rv →
        runWithRetries attempt n 0 = (j + 1, .completed rv)) := by
  refine ⟨fun attempt n h => ?_, fun attempt n i h => runWithRetries_protocol attempt n i h,
    fun attempt n j rv hjn hk hs => ?_⟩
  · have hx := runWithRetries_all_transport attempt h n 0
    rwa [Nat.zero_add] at hx
  · have hx := runWithRetries_success attempt rv j n 0 hjn
      (fun k hk2 => by rw [Nat.zero_add]; exact hk k hk2)
      (by rwa [Nat.zero_add])
    rwa [Nat.zero_add] at hx

/-- C10 witness: with retry budget 3, all-transport failures give four
attempts and a non-match, a protocol failure gives one attempt and a
failed match, and success on the third attempt reaches evaluation. -/
theorem transport_retried_protocol_not_witness :
    runWithRetries cAttemptT 3 0 = (4, .nonMatch) ∧
      runWithRetries cAttemptP 3 0 = (1, .failedMatchAttempt) ∧
      runWithRetries cAttemptS 3 0 = (3, .completed cRVEmpty) :=
  ⟨transport_retried_protocol_not.1 cAttemptT 3 fun _ => rfl,
    transport_retried_protocol_not.2.1 cAttemptP 3 0 rfl,
    transport_retried_protocol_not.2.2 cAttemptS 3 2 cRVEmpty (by omega)
      (by decide) rfl⟩

mutual
theorem runStep_final_env (env : Env) (s : WStep) :
    (runStep env s).1 = env ++ collectStep s := by
  cases s with
  | node t m e c =>
    cases m with
    | true => simp [runStep, collectStep, runForest_final_env env c]
    | false => simp [runStep, collectStep]
theorem runForest_final_env (env : Env) (ss : List WStep) :
    (runForest env ss).1 = env ++ collectForest ss := by
  cases ss with
  | nil => simp [runForest, collectForest]
  | cons s rest =>
    simp [runForest, collectForest, runStep_final_env env s,
      runForest_final_env (env ++ collectStep s) rest]
end

theorem runForest_trace_path_ne_nil (ss : List WStep) :
    ∀ (env : Env) (p : List Nat) (e : Env),
    (p, e) ∈ (runForest env ss).2 → p ≠ [] := by
  induction ss with
  | nil => intro env p e h; simp [runForest] at h
  | cons s rest ih =>
    intro env p e h
    have h2 : (p, e) ∈
        (runStep env s).2.map (fun pe => (0 :: pe.1, pe.2)) ++
          (runForest (runStep env s).1 rest).2.map (fun pe =>
            match pe with
            | (j :: q, e') => ((j + 1) :: q, e')
            | ([], e') => ([], e')) := h
    rcases List.mem_append.mp h2 with h3 | h3
    · rcases List.mem_map.mp h3 with ⟨pe, _, hpe⟩
      intro hnil
      rw [hnil] at hpe
      exact List.cons_ne_nil _ _ (congrArg Prod.fst hpe)
    · rcases List.mem_map.mp h3 with ⟨pe, hpe2, hpe⟩
      rcases pe with ⟨q, e'⟩
      cases q with
      | nil => exact absurd rfl (ih _ [] e' hpe2)
      | cons j q' =>
        intro hnil
        rw [hnil] at hpe
        exact List.cons_ne_nil _ _ (congrArg Prod.fst hpe)

mutual
theorem runStep_trace_env (env : Env) (s : WStep) (p : List Nat) (e : Env)
    (h : (p, e) ∈ (runStep env s).2) :
    e = env ++ visStepRel s p := by
  cases s with
  | node t m ex c =>
    cases m with
    | false =>
      have h2 : (p, e) ∈ [(([] : List Nat), env)] := h
      have h3 := List.mem_singleton.mp h2
      rw [Prod.mk.injEq] at h3
      rcases h3 with ⟨rfl, rfl⟩
      simp [visStepRel]
    | true =>
      have h2 : (p, e) ∈ (([] : List Nat), env) :: (runForest env c).2 := h
      rcases List.mem_cons.mp h2 with h3 | h3
      · rw [Prod.mk.injEq] at h3
        rcases h3 with ⟨rfl, rfl⟩
        simp [visStepRel]
      · have hne := runForest_trace_path_ne_nil c env p e h3
        have he := runForest_trace_env env c p e h3
        cases p with
        | nil => exact absurd rfl hne
        | cons j q => exact he
theorem runForest_trace_env (env : Env) (ss : List WStep) (p : List Nat) (e : Env)
    (h : (p, e) ∈ (runForest env ss).2) :
    e = env ++ visForest ss p := by
  cases ss with
  | nil => simp [runForest] at h
  | cons s rest =>
    have h2 : (p, e) ∈
        (runStep env s).2.map (fun pe => (0 :: pe.1, pe.2)) ++
          (runForest (runStep env s).1 rest).2.map (fun pe =>
            match pe with
            | (j :: q, e') => ((j + 1) :: q, e')
            | ([], e') => ([], e')) := h
    rcases List.mem_append.mp h2 with h3 | h3
    · rcases List.mem_map.mp h3 with ⟨⟨q, e2⟩, hq, hpe⟩
      rw [Prod.mk.injEq] at hpe
      obtain ⟨hp1, hp2⟩ := hpe
      have he := runStep_trace_env env s q e2 hq
      rw [← hp1, ← hp2]
      cases q with
      | nil =>
        rw [he]
        simp [visForest, visStepRel, collectForest]
      | cons j q2 =>
        rw [he]
        simp [visForest, visStepRel, collectForest]
    · rcases List.mem_map.mp h3 with ⟨⟨q, e2⟩, hq, hpe⟩
      cases q with
      | nil => exact absurd rfl (runForest_trace_path_ne_nil rest _ [] e2 hq)
      | cons j q2 =>
        rw [Prod.mk.injEq] at hpe
        obtain ⟨hp1, hp2⟩ := hpe
        have he := runForest_trace_env (runStep env s).1 rest (j :: q2) e2 hq
        rw [runStep_final_env env s] at he
        rw [← hp1, ← hp2]
        rw [he]
        have hv : visForest (s :: rest) ((j + 1) :: q2) =
            collectStep s ++ visForest rest (j :: q2) := by
          cases q2 with
          | nil => simp [visForest, List.take_succ_cons, collectForest]
          | cons x xs =>
            simp only [visForest, List.take_succ_cons, collectForest,
              List.get?_cons_succ]
            rw [List.append_assoc]
        rw [hv, List.append_assoc]
end

/-- C9: the Execution Context a workflow step reads at dispatch is
exactly the initial context extended, level by level along the step's
path, with the variables accumulated by the already-completed earlier
siblings of the step and of its ancestors — in particular no variable
of a not-yet-executed step is ever visible. -/
theorem workflow_variable_visibility (init : Env) (steps : List WStep)
    (p : List Nat) (e : Env) (h : (p, e) ∈ (runForest init steps).2) :
    e = init ++ visForest steps p :=
  runForest_trace_env init steps p e h

/-- C9 witness: in a three-step workflow whose second step has a
child, the child's dispatch context holds exactly the first step's
variable — not the parent's own extract, which merges only after the
children complete. -/
theorem workflow_variable_visibility_witness :
    (([1, 0], [(['a'], ['1'])]) ∈ (runForest [] [wfS1, wfS2, wfS3]).2) ∧
      [(['a'], ['1'])] = [] ++ visForest [wfS1, wfS2, wfS3] [1, 0] :=
  ⟨by decide, workflow_variable_visibility [] [wfS1, wfS2, wfS3] [1, 0] _ (by decide)⟩

end Nuclei
